import Mathlib

/-!
Verification of the extent-retrieval core of `fiemap.c`.

The file shallowly embeds `read_fiemap` and `main` from `src/fiemap.c`.
The kernel `ioctl(fd, FS_IOC_FIEMAP, ...)` call is modelled as an oracle
function from the call index and the request structure to either an
OS-level failure (`none`) or the list of mapped extents the filesystem
reports (`some exts`).  The C `while` loop is embedded as a fuel-indexed
recursion; exhausting the fuel yields the distinguished outcome `hang`,
which marks a run of the C program that has not terminated within that
many iterations.  Machine integers are modelled as `Nat` with explicit
reductions modulo `2 ^ 32` (the `__u32` running count `result_extents`)
and `2 ^ 64` (the `__u64` cursor `fiemap_start`).
-/

namespace Fiemap

/-- Bit `FIEMAP_EXTENT_LAST` (0x00000001) from `linux/fiemap.h`: set on the
last extent of a file. -/
def FIEMAP_EXTENT_LAST : Nat := 1

/-- Bit `FIEMAP_FLAG_SYNC` (0x00000001) from `linux/fiemap.h`: asks the
filesystem to flush pending writes before reporting. -/
def FIEMAP_FLAG_SYNC : Nat := 1

/-- `const __u32 MAX_EXTENTS = 1024` from `read_fiemap` (fiemap.c line 87). -/
def MAX_EXTENTS : Nat := 1024

/-- One `struct fiemap_extent`: the four fields the program reads or copies.
All are unsigned 64-bit in the ABI except `fe_flags` (32-bit). -/
structure fiemap_extent where
  fe_logical : Nat
  fe_physical : Nat
  fe_length : Nat
  fe_flags : Nat
deriving DecidableEq, Repr

/-- The request half of `struct fiemap` as `read_fiemap` fills it in
(fiemap.c lines 116-122): after the two `memset` calls every field is 0,
then `fm_start`, `fm_length`, `fm_flags` and `fm_extent_count` are set.
`fm_mapped_extents` is kept to witness that the chunk is zeroed. -/
structure fiemap_req where
  fm_start : Nat
  fm_length : Nat
  fm_flags : Nat
  fm_mapped_extents : Nat
  fm_extent_count : Nat
deriving DecidableEq, Repr

/-- The query chunk built at the top of each loop iteration
(fiemap.c lines 116-122). -/
def mk_query (start len : Nat) : fiemap_req :=
  { fm_start := start
    fm_length := len
    fm_flags := FIEMAP_FLAG_SYNC
    fm_mapped_extents := 0
    fm_extent_count := MAX_EXTENTS }

/-- Oracle for `ioctl(fd, FS_IOC_FIEMAP, fiemap)`: given the index of the
call (0-based) and the request, either fail (`none`, the `ioctl < 0` path)
or return the mapped extents (`fm_mapped_extents` is their number). -/
abbrev FiemapIoctl := Nat → fiemap_req → Option (List fiemap_extent)

/-- What `read_fiemap` produces: a filled `result_fiemap` (its extent array
and its `fm_mapped_extents` field, a `__u32`), the NULL return, or
non-termination of the C loop (it has no fuel bound; `hang` records that
no finite fuel suffices up to the bound used). -/
inductive Outcome where
  | ok (extents : List fiemap_extent) (count : Nat)
  | fail
  | hang
deriving DecidableEq, Repr

/-- Number of extents held by a successful result, 0 otherwise. -/
def Outcome.num_extents : Outcome → Nat
  | .ok exts _ => exts.length
  | _ => 0

/-- The `fm_mapped_extents` field of a successful result, 0 otherwise. -/
def Outcome.result_count : Outcome → Nat
  | .ok _ cnt => cnt
  | _ => 0

/-- Whether the run returned a (non-NULL) result. -/
def Outcome.is_ok : Outcome → Bool
  | .ok _ _ => true
  | _ => false

/-- One run of `read_fiemap`, instrumented with the observable interface
traffic: `reqs` are the requests issued to the ioctl oracle in order and
`resps` the successful responses in order.  Only `outcome` is returned to
the caller; the traces exist to state claims about the interface calls. -/
structure RunResult where
  outcome : Outcome
  reqs : List fiemap_req
  resps : List (List fiemap_extent)
deriving DecidableEq, Repr

/-- The result accumulator: `result_fiemap`'s extent array together with the
`__u32` running count `result_extents` (fiemap.c lines 79, 84). -/
structure Accumulator where
  extents : List fiemap_extent
  count : Nat
deriving DecidableEq, Repr

/-- One append step (fiemap.c lines 140-155): `realloc` the backing array to
`result_extents + fm_mapped_extents` entries, `memcpy` the chunk's extents
to offset `result_extents` (immediately after the existing data), and add
the chunk's count to `result_extents` (`__u32` addition). -/
def Accumulator.append (a : Accumulator) (chunk : List fiemap_extent) : Accumulator :=
  { extents := a.extents ++ chunk
    count := (a.count + chunk.length) % 2 ^ 32 }

/-- The `while (fiemap_start < fiemap_length)` loop of `read_fiemap`
(fiemap.c lines 115-167), with `finalize` folded in: on every normal exit
the C code stores `result_extents` into `result_fiemap->fm_mapped_extents`
and returns it (lines 169-175).  `fuel` bounds the number of iterations
still allowed; the C loop has no such bound, so running out of fuel is
reported as `hang`.  Branches, in source order: ioctl failure →
`fail_cleanup` (NULL, line 129); zero mapped extents → `break` (line 137);
otherwise append, advance the cursor to the last extent's
`fe_logical + fe_length` (`__u64`, lines 161-162), and `break` if that
extent carries `FIEMAP_EXTENT_LAST` (line 164). -/
def read_fiemap_loop (fs : FiemapIoctl) (len : Nat) :
    Nat → Nat → Accumulator → Nat → RunResult
  | 0, start, a, _ =>
      if start < len then ⟨.hang, [], []⟩ else ⟨.ok a.extents a.count, [], []⟩
  | fuel + 1, start, a, nc =>
      if start < len then
        match fs nc (mk_query start len) with
        | none => ⟨.fail, [mk_query start len], []⟩
        | some exts =>
          if hne : exts = [] then
            ⟨.ok a.extents a.count, [mk_query start len], [exts]⟩
          else
            if (exts.getLast hne).fe_flags &&& FIEMAP_EXTENT_LAST ≠ 0 then
              ⟨.ok (a.append exts).extents (a.append exts).count,
                [mk_query start len], [exts]⟩
            else
              ⟨(read_fiemap_loop fs len fuel
                  (((exts.getLast hne).fe_logical + (exts.getLast hne).fe_length) % 2 ^ 64)
                  (a.append exts) (nc + 1)).outcome,
                mk_query start len ::
                  (read_fiemap_loop fs len fuel
                      (((exts.getLast hne).fe_logical + (exts.getLast hne).fe_length) % 2 ^ 64)
                      (a.append exts) (nc + 1)).reqs,
                exts ::
                  (read_fiemap_loop fs len fuel
                      (((exts.getLast hne).fe_logical + (exts.getLast hne).fe_length) % 2 ^ 64)
                      (a.append exts) (nc + 1)).resps⟩
      else ⟨.ok a.extents a.count, [], []⟩

/-- `read_fiemap(fd)` (fiemap.c lines 76-185).  `fstat_size` is the result
of the `fstat` call: `none` if it failed (NULL return, line 94), otherwise
the file's byte size.  The two `malloc` calls are assumed to succeed (their
failure paths also return NULL and touch nothing else).  The loop starts at
cursor 0 with an empty accumulator. -/
def read_fiemap (fs : FiemapIoctl) (fstat_size : Option Nat) (fuel : Nat) : RunResult :=
  match fstat_size with
  | none => ⟨.fail, [], []⟩
  | some len => read_fiemap_loop fs len fuel 0 ⟨[], 0⟩ 0

/-- Per-file input to `main`'s loop: either `open` fails, or it yields a
descriptor whose `fstat` result and ioctl behaviour are given. -/
inductive FileSpec where
  | openFail
  | opened (fstat_size : Option Nat) (fs : FiemapIoctl)

/-- The observable effect of `main`'s loop body on one argument. -/
inductive FileReport where
  | openError
  | queryError
  | dumped (count : Nat)
deriving DecidableEq, Repr

/-- What `main` does with one argument (fiemap.c lines 196-210): an open
failure is reported to stderr and the file skipped; otherwise
`read_fiemap` runs and on success `dump_fiemap` prints the result's
`fm_mapped_extents`.  `none` models a run whose `read_fiemap` loop does
not terminate within the fuel. -/
def process_file (fuel : Nat) : FileSpec → Option FileReport
  | .openFail => some .openError
  | .opened sz fs =>
    match (read_fiemap fs sz fuel).outcome with
    | .ok _ cnt => some (.dumped cnt)
    | .fail => some .queryError
    | .hang => none

/-- `main`'s `for` loop over the arguments (fiemap.c lines 196-210),
processed left to right; `none` if some file's query loop never ends. -/
def run_files (fuel : Nat) : List FileSpec → Option (List FileReport)
  | [] => some []
  | f :: rest =>
    match process_file fuel f with
    | none => none
    | some r =>
      match run_files fuel rest with
      | none => none
      | some rs => some (r :: rs)

/-- `main` (fiemap.c lines 187-212): with no file arguments it prints the
usage line and exits with `EXIT_FAILURE` (1); otherwise it processes every
argument and exits with `EXIT_SUCCESS` (0).  The result pairs the exit
status with the per-file reports. -/
def main_run (fuel : Nat) (files : List FileSpec) : Option (Nat × List FileReport) :=
  if files.isEmpty then some (1, [])
  else (run_files fuel files).map fun reports => (0, reports)

/-- Sum of the per-chunk mapped-extent counts of a list of chunks. -/
def chunk_sum (cs : List (List fiemap_extent)) : Nat :=
  (cs.map List.length).sum

/-! Concrete interface behaviours used to evaluate the model on the spec's
example scenarios.  A response list is written `front ++ [final]` so that
its last element is available by lemma rather than by deep evaluation. -/

/-- 1024 extents covering `[0, 1024)` one byte each; none carries
`FIEMAP_EXTENT_LAST`. -/
def chunkA : List fiemap_extent :=
  ((List.range 1023).map fun j => ⟨j, j, 1, 0⟩) ++ [⟨1023, 1023, 1, 0⟩]

/-- 1024 extents covering `[1024, 2048)`; none carries the last flag. -/
def chunkB : List fiemap_extent :=
  ((List.range 1023).map fun j => ⟨1024 + j, j, 1, 0⟩) ++ [⟨2047, 1023, 1, 0⟩]

/-- 5 extents covering `[2048, 2053)`; the fifth carries
`FIEMAP_EXTENT_LAST`. -/
def chunkC : List fiemap_extent :=
  ((List.range 4).map fun j => ⟨2048 + j, j, 1, 0⟩) ++ [⟨2052, 4, 1, FIEMAP_EXTENT_LAST⟩]

/-- The spec's 3-chunk example: 1024 extents (not last), 1024 extents (not
last), then 5 extents with the last flag on the fifth. -/
def fs_three_chunks : FiemapIoctl := fun n _ =>
  if n = 0 then some chunkA else if n = 1 then some chunkB else some chunkC

/-- Two single-extent chunks; the second carries the last flag. -/
def fs_two_chunks : FiemapIoctl := fun n _ =>
  if n = 0 then some [⟨0, 0, 5, 0⟩] else some [⟨5, 0, 5, 1⟩]

/-- First call: one extent, not last; second call: ioctl failure. -/
def fs_second_fails : FiemapIoctl := fun n _ =>
  if n = 0 then some [⟨0, 0, 5, 0⟩] else none

/-- First call: one extent `[0, 10)`, not last; later calls: a last extent
covering the rest.  Used to exhibit the request fields of call 2. -/
def fs_partial_then_last : FiemapIoctl := fun n _ =>
  if n = 0 then some [⟨0, 0, 10, 0⟩] else some [⟨10, 0, 90, 1⟩]

/-- Every call returns one zero-length extent at offset 0 without the last
flag: the cursor never advances. -/
def fs_zero_len_extent : FiemapIoctl := fun _ _ =>
  some [⟨0, 0, 0, 0⟩]

/-- Every call returns one extent `[0, 10)` without the last flag: the
cursor jumps to the file size in one step. -/
def fs_end_at_size : FiemapIoctl := fun _ _ =>
  some [⟨0, 0, 10, 0⟩]

/-- Every call returns one extent `[0, 1)` without the last flag. -/
def fs_one_small : FiemapIoctl := fun _ _ =>
  some [⟨0, 0, 1, 0⟩]

/-- A two-file batch: the first file fails to open, the second opens as an
empty file. -/
def files_w : List FileSpec :=
  [FileSpec.openFail, FileSpec.opened (some 0) fs_zero_len_extent]

/-! Unfolding lemmas for `read_fiemap_loop`, one per branch of the C loop. -/

/-- When the cursor has reached the file size the loop exits at once,
finalizing the accumulated result, for any fuel. -/
theorem read_fiemap_loop_halt (fs : FiemapIoctl) (len fuel start nc : Nat)
    (a : Accumulator) (h : ¬ start < len) :
    read_fiemap_loop fs len fuel start a nc = ⟨.ok a.extents a.count, [], []⟩ := by
  cases fuel <;> simp [read_fiemap_loop, h]

/-- Out of fuel with the cursor still inside the file: the run hangs. -/
theorem read_fiemap_loop_fuel0 (fs : FiemapIoctl) (len start nc : Nat)
    (a : Accumulator) (h : start < len) :
    read_fiemap_loop fs len 0 start a nc = ⟨.hang, [], []⟩ := by
  simp [read_fiemap_loop, h]

/-- An ioctl failure aborts the whole run with no result. -/
theorem read_fiemap_loop_err (fs : FiemapIoctl) (len fuel start nc : Nat)
    (a : Accumulator) (h1 : start < len)
    (h2 : fs nc (mk_query start len) = none) :
    read_fiemap_loop fs len (fuel + 1) start a nc
      = ⟨.fail, [mk_query start len], []⟩ := by
  simp [read_fiemap_loop, h1, h2]

/-- A response with zero mapped extents stops the loop successfully. -/
theorem read_fiemap_loop_empty (fs : FiemapIoctl) (len fuel start nc : Nat)
    (a : Accumulator) (h1 : start < len)
    (h2 : fs nc (mk_query start len) = some []) :
    read_fiemap_loop fs len (fuel + 1) start a nc
      = ⟨.ok a.extents a.count, [mk_query start len], [[]]⟩ := by
  simp [read_fiemap_loop, h1, h2]

/-- A nonempty response whose final extent carries `FIEMAP_EXTENT_LAST`
stops the loop successfully after appending the chunk. -/
theorem read_fiemap_loop_last (fs : FiemapIoctl) (len fuel start nc : Nat)
    (a : Accumulator) (exts : List fiemap_extent) (hne : exts ≠ [])
    (h1 : start < len)
    (h2 : fs nc (mk_query start len) = some exts)
    (hl : (exts.getLast hne).fe_flags &&& FIEMAP_EXTENT_LAST ≠ 0) :
    read_fiemap_loop fs len (fuel + 1) start a nc
      = ⟨.ok (a.append exts).extents (a.append exts).count,
          [mk_query start len], [exts]⟩ := by
  simp only [read_fiemap_loop]
  rw [if_pos h1, h2]
  simp only [Option.some.injEq]
  rw [dif_neg hne, if_pos hl]

/-- A nonempty response whose final extent lacks `FIEMAP_EXTENT_LAST`:
append the chunk, advance the cursor, and continue. -/
theorem read_fiemap_loop_cont (fs : FiemapIoctl) (len fuel start nc : Nat)
    (a : Accumulator) (exts : List fiemap_extent) (hne : exts ≠ [])
    (h1 : start < len)
    (h2 : fs nc (mk_query start len) = some exts)
    (hl : (exts.getLast hne).fe_flags &&& FIEMAP_EXTENT_LAST = 0) :
    read_fiemap_loop fs len (fuel + 1) start a nc
      = ⟨(read_fiemap_loop fs len fuel
            (((exts.getLast hne).fe_logical + (exts.getLast hne).fe_length) % 2 ^ 64)
            (a.append exts) (nc + 1)).outcome,
          mk_query start len ::
            (read_fiemap_loop fs len fuel
                (((exts.getLast hne).fe_logical + (exts.getLast hne).fe_length) % 2 ^ 64)
                (a.append exts) (nc + 1)).reqs,
          exts ::
            (read_fiemap_loop fs len fuel
                (((exts.getLast hne).fe_logical + (exts.getLast hne).fe_length) % 2 ^ 64)
                (a.append exts) (nc + 1)).resps⟩ := by
  simp only [read_fiemap_loop]
  rw [if_pos h1, h2]
  simp only [Option.some.injEq]
  rw [dif_neg hne, if_neg (not_not_intro hl)]

/-! Auxiliary lemmas. -/

/-- A loop that is entered with fuel left issues at least one request. -/
theorem read_fiemap_loop_pos (fs : FiemapIoctl) (len fuel start nc : Nat)
    (a : Accumulator) (h1 : start < len) :
    1 ≤ (read_fiemap_loop fs len (fuel + 1) start a nc).reqs.length := by
  cases hfs : fs nc (mk_query start len) with
  | none => rw [read_fiemap_loop_err _ _ _ _ _ _ h1 hfs]; simp
  | some exts =>
    by_cases hne : exts = []
    · subst hne; rw [read_fiemap_loop_empty _ _ _ _ _ _ h1 hfs]; simp
    · by_cases hl : (exts.getLast hne).fe_flags &&& FIEMAP_EXTENT_LAST ≠ 0
      · rw [read_fiemap_loop_last _ _ _ _ _ _ _ hne h1 hfs hl]; simp
      · push_neg at hl
        rw [read_fiemap_loop_cont _ _ _ _ _ _ _ hne h1 hfs hl]; simp

/-- Appending a chunk to an accumulator that holds the flattening of the
completed chunks yields the accumulator of the extended chunk list. -/
theorem acc_append_eq (chunks : List (List fiemap_extent)) (e : List fiemap_extent) :
    Accumulator.append ⟨chunks.flatten, chunk_sum chunks % 2 ^ 32⟩ e
      = ⟨(chunks ++ [e]).flatten, chunk_sum (chunks ++ [e]) % 2 ^ 32⟩ := by
  simp [Accumulator.append, chunk_sum, List.flatten_append, Nat.mod_add_mod]

/-- Folding `Accumulator.append` concatenates, whatever the start state. -/
theorem foldl_append_extents (chunks : List (List fiemap_extent)) :
    ∀ a : Accumulator,
      (List.foldl Accumulator.append a chunks).extents = a.extents ++ chunks.flatten := by
  induction chunks with
  | nil => intro a; simp
  | cons c cs ih => intro a; simp [ih, Accumulator.append, List.append_assoc]

/-- `chunkA` is nonempty. -/
theorem chunkA_ne : chunkA ≠ [] := by simp [chunkA]

/-- `chunkB` is nonempty. -/
theorem chunkB_ne : chunkB ≠ [] := by simp [chunkB]

/-- `chunkC` is nonempty. -/
theorem chunkC_ne : chunkC ≠ [] := by simp [chunkC]

/-- Last element of `chunkA`. -/
theorem chunkA_last (h : chunkA ≠ []) : chunkA.getLast h = ⟨1023, 1023, 1, 0⟩ :=
  List.getLast_append_singleton _

/-- Last element of `chunkB`. -/
theorem chunkB_last (h : chunkB ≠ []) : chunkB.getLast h = ⟨2047, 1023, 1, 0⟩ :=
  List.getLast_append_singleton _

/-- Last element of `chunkC`. -/
theorem chunkC_last (h : chunkC ≠ []) :
    chunkC.getLast h = ⟨2052, 4, 1, FIEMAP_EXTENT_LAST⟩ :=
  List.getLast_append_singleton _

/-- `chunkA` has 1024 extents. -/
theorem chunkA_len : chunkA.length = 1024 := by simp [chunkA]

/-- `chunkB` has 1024 extents. -/
theorem chunkB_len : chunkB.length = 1024 := by simp [chunkB]

/-- `chunkC` has 5 extents. -/
theorem chunkC_len : chunkC.length = 5 := by simp [chunkC]

/-- The full run of the driver on the 3-chunk example, symbolically. -/
theorem run_three_chunks :
    read_fiemap fs_three_chunks (some 4096) 10
      = ⟨.ok ((((Accumulator.mk [] 0).append chunkA).append chunkB).append chunkC).extents
             ((((Accumulator.mk [] 0).append chunkA).append chunkB).append chunkC).count,
          [mk_query 0 4096, mk_query 1024 4096, mk_query 2048 4096],
          [chunkA, chunkB, chunkC]⟩ := by
  show read_fiemap_loop fs_three_chunks 4096 10 0 ⟨[], 0⟩ 0 = _
  have e1 : read_fiemap_loop fs_three_chunks 4096 10 0 ⟨[], 0⟩ 0
      = ⟨(read_fiemap_loop fs_three_chunks 4096 9
            (((chunkA.getLast chunkA_ne).fe_logical + (chunkA.getLast chunkA_ne).fe_length) % 2 ^ 64)
            (Accumulator.append ⟨[], 0⟩ chunkA) (0 + 1)).outcome,
          mk_query 0 4096 ::
            (read_fiemap_loop fs_three_chunks 4096 9
                (((chunkA.getLast chunkA_ne).fe_logical + (chunkA.getLast chunkA_ne).fe_length) % 2 ^ 64)
                (Accumulator.append ⟨[], 0⟩ chunkA) (0 + 1)).reqs,
          chunkA ::
            (read_fiemap_loop fs_three_chunks 4096 9
                (((chunkA.getLast chunkA_ne).fe_logical + (chunkA.getLast chunkA_ne).fe_length) % 2 ^ 64)
                (Accumulator.append ⟨[], 0⟩ chunkA) (0 + 1)).resps⟩ :=
    read_fiemap_loop_cont fs_three_chunks 4096 9 0 0 ⟨[], 0⟩ chunkA chunkA_ne
      (by norm_num) rfl (by rw [chunkA_last]; decide)
  rw [e1, chunkA_last]
  norm_num
  have e2 : read_fiemap_loop fs_three_chunks 4096 9 1024 (Accumulator.append ⟨[], 0⟩ chunkA) 1
      = ⟨(read_fiemap_loop fs_three_chunks 4096 8
            (((chunkB.getLast chunkB_ne).fe_logical + (chunkB.getLast chunkB_ne).fe_length) % 2 ^ 64)
            (Accumulator.append (Accumulator.append ⟨[], 0⟩ chunkA) chunkB) (1 + 1)).outcome,
          mk_query 1024 4096 ::
            (read_fiemap_loop fs_three_chunks 4096 8
                (((chunkB.getLast chunkB_ne).fe_logical + (chunkB.getLast chunkB_ne).fe_length) % 2 ^ 64)
                (Accumulator.append (Accumulator.append ⟨[], 0⟩ chunkA) chunkB) (1 + 1)).reqs,
          chunkB ::
            (read_fiemap_loop fs_three_chunks 4096 8
                (((chunkB.getLast chunkB_ne).fe_logical + (chunkB.getLast chunkB_ne).fe_length) % 2 ^ 64)
                (Accumulator.append (Accumulator.append ⟨[], 0⟩ chunkA) chunkB) (1 + 1)).resps⟩ :=
    read_fiemap_loop_cont fs_three_chunks 4096 8 1024 1
      (Accumulator.append ⟨[], 0⟩ chunkA) chunkB chunkB_ne
      (by norm_num) rfl (by rw [chunkB_last]; decide)
  rw [e2, chunkB_last]
  norm_num
  have e3 : read_fiemap_loop fs_three_chunks 4096 8 2048
      (Accumulator.append (Accumulator.append ⟨[], 0⟩ chunkA) chunkB) 2
      = ⟨.ok (((Accumulator.append (Accumulator.append ⟨[], 0⟩ chunkA) chunkB).append chunkC).extents)
             (((Accumulator.append (Accumulator.append ⟨[], 0⟩ chunkA) chunkB).append chunkC).count),
          [mk_query 2048 4096], [chunkC]⟩ :=
    read_fiemap_loop_last fs_three_chunks 4096 7 2048 2
      (Accumulator.append (Accumulator.append ⟨[], 0⟩ chunkA) chunkB) chunkC chunkC_ne
      (by norm_num) rfl (by rw [chunkC_last]; decide)
  rw [e3]
  exact ⟨rfl, rfl, rfl⟩

/-- `getLast` of a one-element response. -/
theorem getLast_single (e : fiemap_extent) (h : ([e] : List fiemap_extent) ≠ []) :
    ([e] : List fiemap_extent).getLast h = e := rfl

/-- `run_files` processes every file: a successful batch has one report per
file, each the report of processing that file. -/
theorem run_files_spec (fuel : Nat) :
    ∀ (files : List FileSpec) (reports : List FileReport),
      run_files fuel files = some reports →
      reports.length = files.length
      ∧ ∀ i : Nat, reports[i]? = (files[i]?).bind (process_file fuel) := by
  intro files
  induction files with
  | nil =>
    intro reports h
    simp only [run_files, Option.some.injEq] at h
    subst h
    exact ⟨rfl, fun i => by cases i <;> simp⟩
  | cons f rest ih =>
    intro reports h
    simp only [run_files] at h
    cases hp : process_file fuel f with
    | none => rw [hp] at h; simp at h
    | some r =>
      rw [hp] at h
      cases hr : run_files fuel rest with
      | none => rw [hr] at h; simp at h
      | some rs =>
        rw [hr] at h
        simp only [Option.some.injEq] at h
        subst h
        obtain ⟨hlen, hget⟩ := ih rs hr
        refine ⟨by simp [hlen], fun i => ?_⟩
        cases i with
        | zero => simp [hp]
        | succ i => simpa using hget i

/-- On `fs_zero_len_extent` with file size 1 the loop never terminates:
whatever the accumulator, the call index and the fuel, the fuel runs out. -/
theorem loop_zero_extent_hangs :
    ∀ (fuel : Nat) (a : Accumulator) (nc : Nat),
      (read_fiemap_loop fs_zero_len_extent 1 fuel 0 a nc).outcome = .hang := by
  intro fuel
  induction fuel with
  | zero =>
    intro a nc
    rw [read_fiemap_loop_fuel0 _ _ _ _ _ (by norm_num)]
  | succ fuel ih =>
    intro a nc
    have hne : ([⟨0, 0, 0, 0⟩] : List fiemap_extent) ≠ [] := by simp
    rw [read_fiemap_loop_cont fs_zero_len_extent 1 fuel 0 nc a [⟨0, 0, 0, 0⟩] hne
        (by norm_num) rfl (by rw [getLast_single]; decide)]
    simpa using ih (a.append [⟨0, 0, 0, 0⟩]) (nc + 1)

/-! The claims. -/

/-- Claim C4: each append to the Accumulator places the new extents
immediately after the existing ones, preserving what was already there, so
after k appends the accumulated sequence is the concatenation of the k
chunks' extent lists in append order. -/
theorem fiemap_c4_accumulator_append (chunks : List (List fiemap_extent)) :
    (List.foldl Accumulator.append ⟨[], 0⟩ chunks).extents = chunks.flatten
    ∧ ∀ (a : Accumulator) (c : List fiemap_extent),
        (a.append c).extents = a.extents ++ c := by
  refine ⟨?_, fun a c => rfl⟩
  simpa using foldl_append_extents chunks ⟨[], 0⟩

/-- Claim C7: a file of size 0 (size lookup and allocations succeeding)
yields a successful empty result with no interface queries issued. -/
theorem fiemap_c7_empty_file_ok (fs : FiemapIoctl) (fuel : Nat) :
    read_fiemap fs (some 0) fuel = ⟨.ok [] 0, [], []⟩ := by
  cases fuel <;> simp [read_fiemap, read_fiemap_loop]

/-- Claim C8, counterexample: a zero-size file does NOT produce an error;
the driver returns a successful empty result, contradicting the claim that
zero-size files produce a file-size-lookup error. -/
theorem fiemap_c8_counterexample :
    (read_fiemap fs_zero_len_extent (some 0) 1).outcome = .ok [] 0
    ∧ (read_fiemap fs_zero_len_extent (some 0) 1).outcome ≠ .fail := by
  decide

/-- Claim C8 (amended): in step 1 only a failed file-size lookup produces
an error; a zero-size file instead succeeds with an empty extent
sequence. -/
theorem fiemap_c8_size_lookup (fs : FiemapIoctl) (fuel : Nat) :
    read_fiemap fs none fuel = ⟨.fail, [], []⟩
    ∧ (read_fiemap fs (some 0) fuel).outcome = .ok [] 0 := by
  refine ⟨rfl, ?_⟩
  cases fuel <;> simp [read_fiemap, read_fiemap_loop]

/-- Claim C6: on a response whose extents never advance the cursor (one
zero-length extent at the current offset, no last flag) the driver does
not terminate with an error as the spec requires: the loop runs forever
(every finite fuel is exhausted). -/
theorem fiemap_c6_nonadvancing_hangs (fuel : Nat) :
    (read_fiemap fs_zero_len_extent (some 1) fuel).outcome = .hang :=
  loop_zero_extent_hangs fuel ⟨[], 0⟩ 0

/-- Claim C5, counterexample: on the second loop iteration the issued
request's `fm_length` is the whole file size (100), not the remaining
unscanned span (100 - 10 = 90): the code sets `fm_length = fiemap_length`
(the file size) on every iteration. -/
theorem fiemap_c5_counterexample :
    (read_fiemap fs_partial_then_last (some 100) 5).reqs[1]? = some (mk_query 10 100)
    ∧ (mk_query 10 100).fm_length ≠ 100 - (mk_query 10 100).fm_start := by
  decide

/-- Claim C5 (amended): every request the loop issues is zeroed, has the
flush/synchronize flag set, capacity `MAX_EXTENTS` (1024), and requests the
range `[start, start + file_size)`: its `fm_length` is the whole file size,
not the remaining span. -/
theorem fiemap_c5_query_fields (fs : FiemapIoctl) (len : Nat) :
    ∀ (fuel start nc : Nat) (a : Accumulator) (req : fiemap_req),
      req ∈ (read_fiemap_loop fs len fuel start a nc).reqs →
      req.fm_length = len ∧ req.fm_flags = FIEMAP_FLAG_SYNC
      ∧ req.fm_extent_count = MAX_EXTENTS ∧ req.fm_mapped_extents = 0 := by
  intro fuel
  induction fuel with
  | zero =>
    intro start nc a req h
    by_cases h1 : start < len
    · rw [read_fiemap_loop_fuel0 _ _ _ _ _ h1] at h; simp at h
    · rw [read_fiemap_loop_halt _ _ _ _ _ _ h1] at h; simp at h
  | succ fuel ih =>
    intro start nc a req h
    by_cases h1 : start < len
    · cases hfs : fs nc (mk_query start len) with
      | none =>
        rw [read_fiemap_loop_err _ _ _ _ _ _ h1 hfs] at h
        simp at h
        subst h
        exact ⟨rfl, rfl, rfl, rfl⟩
      | some exts =>
        by_cases hne : exts = []
        · subst hne
          rw [read_fiemap_loop_empty _ _ _ _ _ _ h1 hfs] at h
          simp at h
          subst h
          exact ⟨rfl, rfl, rfl, rfl⟩
        · by_cases hl : (exts.getLast hne).fe_flags &&& FIEMAP_EXTENT_LAST ≠ 0
          · rw [read_fiemap_loop_last _ _ _ _ _ _ _ hne h1 hfs hl] at h
            simp at h
            subst h
            exact ⟨rfl, rfl, rfl, rfl⟩
          · push_neg at hl
            rw [read_fiemap_loop_cont _ _ _ _ _ _ _ hne h1 hfs hl] at h
            simp only [List.mem_cons] at h
            rcases h with h | h
            · subst h
              exact ⟨rfl, rfl, rfl, rfl⟩
            · exact ih _ _ _ _ h
    · rw [read_fiemap_loop_halt _ _ _ _ _ _ h1] at h; simp at h

/-- Witness for C5 (amended): the first request of a concrete run has the
stated fields. -/
theorem fiemap_c5_query_fields_witness :
    mk_query 0 10 ∈ (read_fiemap_loop fs_two_chunks 10 5 0 ⟨[], 0⟩ 0).reqs
    ∧ ((mk_query 0 10).fm_length = 10 ∧ (mk_query 0 10).fm_flags = FIEMAP_FLAG_SYNC
      ∧ (mk_query 0 10).fm_extent_count = MAX_EXTENTS
      ∧ (mk_query 0 10).fm_mapped_extents = 0) :=
  ⟨by decide,
   fiemap_c5_query_fields fs_two_chunks 10 5 0 0 ⟨[], 0⟩ (mk_query 0 10) (by decide)⟩

/-- Claim C10: a chunk whose final extent reaches or passes the file size,
even without the last-extent flag, terminates the loop successfully after
that chunk: the cursor test `start < file_size` is a third successful
termination condition. -/
theorem fiemap_c10_cursor_end (fs : FiemapIoctl) (len fuel start nc : Nat)
    (a : Accumulator) (exts : List fiemap_extent) (hne : exts ≠ [])
    (h1 : start < len)
    (h2 : fs nc (mk_query start len) = some exts)
    (hl : (exts.getLast hne).fe_flags &&& FIEMAP_EXTENT_LAST = 0)
    (hend : len ≤ ((exts.getLast hne).fe_logical + (exts.getLast hne).fe_length) % 2 ^ 64) :
    read_fiemap_loop fs len (fuel + 1) start a nc
      = ⟨.ok (a.append exts).extents (a.append exts).count,
          [mk_query start len], [exts]⟩ := by
  rw [read_fiemap_loop_cont _ _ _ _ _ _ _ hne h1 h2 hl,
      read_fiemap_loop_halt _ _ _ _ _ _ (Nat.not_lt.mpr hend)]

/-- Witness for C10: a single chunk `[0, 10)` without the last flag on a
10-byte file ends the run successfully at once. -/
theorem fiemap_c10_cursor_end_witness :
    ((0 : Nat) < 10
    ∧ fs_end_at_size 0 (mk_query 0 10) = some [⟨0, 0, 10, 0⟩]
    ∧ (10 : Nat) ≤ (0 + 10) % 2 ^ 64)
    ∧ read_fiemap_loop fs_end_at_size 10 1 0 ⟨[], 0⟩ 0
      = ⟨.ok [⟨0, 0, 10, 0⟩] 1, [mk_query 0 10], [[⟨0, 0, 10, 0⟩]]⟩ :=
  ⟨⟨by decide, rfl, by decide⟩,
   fiemap_c10_cursor_end fs_end_at_size 10 0 0 0 ⟨[], 0⟩ [⟨0, 0, 10, 0⟩] (by simp)
     (by decide) rfl (by rw [getLast_single]; decide) (by rw [getLast_single]; decide)⟩

/-- Claim C2: whenever any interface call of a run fails — whatever its
position in the call sequence and however many chunks were accumulated
before it — the whole per-file run fails: the result is the `fail`
outcome, which carries no extent sequence at all (modelling the freed
buffers and the NULL return of `fail_cleanup`).  The failing call is
identified as any request on the run's trace whose oracle response is
`none`. -/
theorem fiemap_c2_failure_no_partial (fs : FiemapIoctl) (len : Nat) :
    ∀ (fuel start nc : Nat) (a : Accumulator) (i : Nat) (req : fiemap_req),
      (read_fiemap_loop fs len fuel start a nc).reqs[i]? = some req →
      fs (nc + i) req = none →
      (read_fiemap_loop fs len fuel start a nc).outcome = Outcome.fail
      ∧ (read_fiemap_loop fs len fuel start a nc).outcome.num_extents = 0
      ∧ (read_fiemap_loop fs len fuel start a nc).outcome.is_ok = false := by
  intro fuel
  induction fuel with
  | zero =>
    intro start nc a i req hget hf
    by_cases h1 : start < len
    · rw [read_fiemap_loop_fuel0 _ _ _ _ _ h1] at hget
      simp at hget
    · rw [read_fiemap_loop_halt _ _ _ _ _ _ h1] at hget
      simp at hget
  | succ fuel ih =>
    intro start nc a i req hget hf
    by_cases h1 : start < len
    · cases hfs : fs nc (mk_query start len) with
      | none =>
        rw [read_fiemap_loop_err _ _ _ _ _ _ h1 hfs]
        exact ⟨rfl, rfl, rfl⟩
      | some exts =>
        by_cases hne : exts = []
        · subst hne
          rw [read_fiemap_loop_empty _ _ _ _ _ _ h1 hfs] at hget
          cases i with
          | zero =>
            simp at hget
            subst hget
            simp only [Nat.add_zero] at hf
            rw [hfs] at hf
            simp at hf
          | succ j => simp at hget
        · by_cases hl : (exts.getLast hne).fe_flags &&& FIEMAP_EXTENT_LAST ≠ 0
          · rw [read_fiemap_loop_last _ _ _ _ _ _ _ hne h1 hfs hl] at hget
            cases i with
            | zero =>
              simp at hget
              subst hget
              simp only [Nat.add_zero] at hf
              rw [hfs] at hf
              simp at hf
            | succ j => simp at hget
          · push_neg at hl
            rw [read_fiemap_loop_cont _ _ _ _ _ _ _ hne h1 hfs hl] at hget ⊢
            simp only at hget ⊢
            cases i with
            | zero =>
              simp at hget
              subst hget
              simp only [Nat.add_zero] at hf
              rw [hfs] at hf
              simp at hf
            | succ j =>
              simp only [List.getElem?_cons_succ] at hget
              have hf' : fs ((nc + 1) + j) req = none := by
                have hnj : nc + (j + 1) = (nc + 1) + j := by omega
                rw [hnj] at hf
                exact hf
              exact ih _ (nc + 1) _ j req hget hf'
    · rw [read_fiemap_loop_halt _ _ _ _ _ _ h1] at hget
      simp at hget

/-- Witness for C2: a failure on the second call of a multi-chunk sequence
(one non-last chunk already accumulated) makes the run fail with no
extents. -/
theorem fiemap_c2_failure_no_partial_witness :
    ((read_fiemap_loop fs_second_fails 10 2 0 ⟨[], 0⟩ 0).reqs[1]?
        = some (mk_query 5 10)
    ∧ fs_second_fails (0 + 1) (mk_query 5 10) = none)
    ∧ ((read_fiemap_loop fs_second_fails 10 2 0 ⟨[], 0⟩ 0).outcome = Outcome.fail
      ∧ (read_fiemap_loop fs_second_fails 10 2 0 ⟨[], 0⟩ 0).outcome.num_extents = 0
      ∧ (read_fiemap_loop fs_second_fails 10 2 0 ⟨[], 0⟩ 0).outcome.is_ok = false) :=
  ⟨⟨by decide, rfl⟩,
   fiemap_c2_failure_no_partial fs_second_fails 10 2 0 0 ⟨[], 0⟩ 1 (mk_query 5 10)
     (by decide) rfl⟩

/-- Claim C1: completion is decided by the last-extent flag, a zero-extent
response or the cursor passing the file size — never by a response smaller
than the capacity: a nonempty chunk of fewer than `MAX_EXTENTS` extents
without the last flag, whose cursor stays inside the file, is followed by
at least one further interface call.  On the spec's 3-chunk example
(1024 not last, 1024 not last, 5 with the last flag on the fifth) the
driver issues exactly 3 interface calls and the result holds exactly 2053
extents. -/
theorem fiemap_c1_multi_chunk :
    (∀ (fs : FiemapIoctl) (len fuel start nc : Nat) (a : Accumulator)
       (exts : List fiemap_extent) (hne : exts ≠ []),
       start < len →
       fs nc (mk_query start len) = some exts →
       exts.length < MAX_EXTENTS →
       (exts.getLast hne).fe_flags &&& FIEMAP_EXTENT_LAST = 0 →
       ((exts.getLast hne).fe_logical + (exts.getLast hne).fe_length) % 2 ^ 64 < len →
       2 ≤ (read_fiemap_loop fs len (fuel + 2) start a nc).reqs.length)
    ∧ (read_fiemap fs_three_chunks (some 4096) 10).outcome.is_ok = true
    ∧ (read_fiemap fs_three_chunks (some 4096) 10).outcome.num_extents = 2053
    ∧ (read_fiemap fs_three_chunks (some 4096) 10).outcome.result_count = 2053
    ∧ (read_fiemap fs_three_chunks (some 4096) 10).reqs.length = 3 := by
  refine ⟨?_, ?_, ?_, ?_, ?_⟩
  · intro fs len fuel start nc a exts hne h1 h2 hcap hl hadv
    rw [read_fiemap_loop_cont fs len (fuel + 1) start nc a exts hne h1 h2 hl]
    have hp := read_fiemap_loop_pos fs len fuel
        (((exts.getLast hne).fe_logical + (exts.getLast hne).fe_length) % 2 ^ 64)
        (nc + 1) (a.append exts) hadv
    simp only [List.length_cons]
    omega
  · rw [run_three_chunks]
    rfl
  · rw [run_three_chunks]
    simp [Outcome.num_extents, Accumulator.append, chunkA_len, chunkB_len, chunkC_len]
  · rw [run_three_chunks]
    simp [Outcome.result_count, Accumulator.append, chunkA_len, chunkB_len, chunkC_len]
  · rw [run_three_chunks]
    rfl

/-- Witness for C1's general part: a one-extent chunk (1 < 1024 capacity)
without the last flag, cursor inside a 2-byte file, is followed by a
second interface call. -/
theorem fiemap_c1_multi_chunk_witness :
    ((0 : Nat) < 2
    ∧ fs_one_small 0 (mk_query 0 2) = some [⟨0, 0, 1, 0⟩]
    ∧ ([⟨0, 0, 1, 0⟩] : List fiemap_extent).length < MAX_EXTENTS)
    ∧ 2 ≤ (read_fiemap_loop fs_one_small 2 (0 + 2) 0 ⟨[], 0⟩ 0).reqs.length :=
  ⟨⟨by decide, rfl, by decide⟩,
   fiemap_c1_multi_chunk.1 fs_one_small 2 0 0 0 ⟨[], 0⟩ [⟨0, 0, 1, 0⟩] (by simp)
     (by decide) rfl (by decide) (by rw [getLast_single]; decide)
     (by rw [getLast_single]; decide)⟩

/-- Claim C3: from any state whose accumulator holds exactly the flattening
of the chunks completed so far (count = their summed sizes as a `__u32`),
a successful run returns exactly the flattening of all completed chunks:
the number of extents held equals the sum of the mapped-extent counts of
all completed chunks, and the result's count field is that sum reduced
modulo `2 ^ 32`. -/
theorem fiemap_c3_count_invariant (fs : FiemapIoctl) (len : Nat) :
    ∀ (fuel start nc : Nat) (chunks : List (List fiemap_extent))
      (exts : List fiemap_extent) (cnt : Nat),
      (read_fiemap_loop fs len fuel start
          ⟨chunks.flatten, chunk_sum chunks % 2 ^ 32⟩ nc).outcome = Outcome.ok exts cnt →
      exts = (chunks ++ (read_fiemap_loop fs len fuel start
                ⟨chunks.flatten, chunk_sum chunks % 2 ^ 32⟩ nc).resps).flatten
      ∧ exts.length = chunk_sum (chunks ++ (read_fiemap_loop fs len fuel start
                ⟨chunks.flatten, chunk_sum chunks % 2 ^ 32⟩ nc).resps)
      ∧ cnt = chunk_sum (chunks ++ (read_fiemap_loop fs len fuel start
                ⟨chunks.flatten, chunk_sum chunks % 2 ^ 32⟩ nc).resps) % 2 ^ 32 := by
  intro fuel
  induction fuel with
  | zero =>
    intro start nc chunks exts cnt h
    by_cases h1 : start < len
    · rw [read_fiemap_loop_fuel0 _ _ _ _ _ h1] at h
      simp at h
    · rw [read_fiemap_loop_halt _ _ _ _ _ _ h1] at h ⊢
      simp only [Outcome.ok.injEq] at h
      obtain ⟨he, hc⟩ := h
      subst he; subst hc
      exact ⟨by simp, by simp [chunk_sum, List.length_flatten], by simp [chunk_sum]⟩
  | succ fuel ih =>
    intro start nc chunks exts cnt h
    by_cases h1 : start < len
    · cases hfs : fs nc (mk_query start len) with
      | none =>
        rw [read_fiemap_loop_err _ _ _ _ _ _ h1 hfs] at h
        simp at h
      | some exts0 =>
        by_cases hne : exts0 = []
        · subst hne
          rw [read_fiemap_loop_empty _ _ _ _ _ _ h1 hfs] at h ⊢
          simp only [Outcome.ok.injEq] at h
          obtain ⟨he, hc⟩ := h
          subst he; subst hc
          exact ⟨by simp, by simp [chunk_sum, List.length_flatten], by simp [chunk_sum]⟩
        · by_cases hl : (exts0.getLast hne).fe_flags &&& FIEMAP_EXTENT_LAST ≠ 0
          · rw [read_fiemap_loop_last _ _ _ _ _ _ _ hne h1 hfs hl] at h ⊢
            rw [acc_append_eq chunks exts0] at h ⊢
            simp only [Outcome.ok.injEq] at h
            obtain ⟨he, hc⟩ := h
            subst he; subst hc
            exact ⟨by simp, by simp [chunk_sum, List.length_flatten], by simp [chunk_sum]⟩
          · push_neg at hl
            rw [read_fiemap_loop_cont _ _ _ _ _ _ _ hne h1 hfs hl] at h ⊢
            rw [acc_append_eq chunks exts0] at h ⊢
            simp only at h ⊢
            have hrec := ih (((exts0.getLast hne).fe_logical
                + (exts0.getLast hne).fe_length) % 2 ^ 64) (nc + 1)
              (chunks ++ [exts0]) exts cnt h
            simpa [List.append_assoc] using hrec
    · rw [read_fiemap_loop_halt _ _ _ _ _ _ h1] at h ⊢
      simp only [Outcome.ok.injEq] at h
      obtain ⟨he, hc⟩ := h
      subst he; subst hc
      exact ⟨by simp, by simp [chunk_sum, List.length_flatten], by simp [chunk_sum]⟩

/-- Witness for C3: a two-chunk run accumulates both single-extent chunks;
extent total 2 equals the sum of the chunk counts. -/
theorem fiemap_c3_count_invariant_witness :
    (read_fiemap_loop fs_two_chunks 10 5 0
        ⟨List.flatten [], chunk_sum [] % 2 ^ 32⟩ 0).outcome
      = Outcome.ok [⟨0, 0, 5, 0⟩, ⟨5, 0, 5, 1⟩] 2
    ∧ (([⟨0, 0, 5, 0⟩, ⟨5, 0, 5, 1⟩] : List fiemap_extent)
        = (([] : List (List fiemap_extent)) ++ (read_fiemap_loop fs_two_chunks 10 5 0
              ⟨List.flatten [], chunk_sum [] % 2 ^ 32⟩ 0).resps).flatten
      ∧ ([⟨0, 0, 5, 0⟩, ⟨5, 0, 5, 1⟩] : List fiemap_extent).length
        = chunk_sum (([] : List (List fiemap_extent)) ++ (read_fiemap_loop fs_two_chunks 10 5 0
              ⟨List.flatten [], chunk_sum [] % 2 ^ 32⟩ 0).resps)
      ∧ 2 = chunk_sum (([] : List (List fiemap_extent)) ++ (read_fiemap_loop fs_two_chunks 10 5 0
              ⟨List.flatten [], chunk_sum [] % 2 ^ 32⟩ 0).resps) % 2 ^ 32) :=
  ⟨by decide,
   fiemap_c3_count_invariant fs_two_chunks 10 5 0 0 []
     [⟨0, 0, 5, 0⟩, ⟨5, 0, 5, 1⟩] 2 (by decide)⟩

/-- Claim C9: the program exits nonzero exactly when no file arguments are
given; otherwise every file is processed in order (failures reported and
skipped without aborting the batch) and the exit status is success. -/
theorem fiemap_c9_exit_status (fuel : Nat) (files : List FileSpec)
    (code : Nat) (reports : List FileReport)
    (h : main_run fuel files = some (code, reports)) :
    (code ≠ 0 ↔ files = [])
    ∧ reports.length = files.length
    ∧ ∀ i : Nat, reports[i]? = (files[i]?).bind (process_file fuel) := by
  by_cases hf : files.isEmpty
  · have hfe : files = [] := by
      cases files with
      | nil => rfl
      | cons f rest => simp [List.isEmpty] at hf
    subst hfe
    rw [main_run] at h
    simp only [List.isEmpty_nil, if_pos, Option.some.injEq, Prod.mk.injEq] at h
    obtain ⟨hc, hr⟩ := h
    refine ⟨by simp [← hc], by simp [← hr], fun i => by simp [← hr]⟩
  · have hne2 : files ≠ [] := fun he => by simp [he, List.isEmpty] at hf
    rw [main_run, if_neg hf] at h
    cases hr : run_files fuel files with
    | none => rw [hr] at h; simp at h
    | some rs =>
      rw [hr] at h
      simp only [Option.map_some', Option.some.injEq, Prod.mk.injEq] at h
      obtain ⟨hc, hrep⟩ := h
      obtain ⟨hlen, hget⟩ := run_files_spec fuel files rs hr
      subst hrep
      refine ⟨⟨fun h0 => absurd hc.symm h0, fun he => absurd he hne2⟩, hlen, hget⟩

/-- Witness for C9: a batch of an unopenable file and an empty file exits
with status 0, reporting the first's open error and the second's (empty)
dump. -/
theorem fiemap_c9_exit_status_witness :
    main_run 1 files_w = some (0, [FileReport.openError, FileReport.dumped 0])
    ∧ (((0 : Nat) ≠ 0 ↔ files_w = [])
      ∧ ([FileReport.openError, FileReport.dumped 0] : List FileReport).length
          = files_w.length
      ∧ ∀ i : Nat, ([FileReport.openError, FileReport.dumped 0] : List FileReport)[i]?
          = (files_w[i]?).bind (process_file 1)) :=
  ⟨by decide,
   fiemap_c9_exit_status 1 files_w 0 [FileReport.openError, FileReport.dumped 0]
     (by decide)⟩

end Fiemap
